import Mathlib

/-!
Verification development for the cypress-status-map repository.

The polling script (scripts/fetch-status.mjs) and the publishing script
(scripts/post_instagraph.mjs) are shallowly embedded below.  Modelling
conventions, fixed once for the whole file:

* Absolute instants are integers.  A JavaScript Date value or the result of
  Date.parse is modelled as an Int number of milliseconds (an Option Int when
  the value may be NaN, i.e. an unparseable timestamp); NaN maps to none.
  The timezone round-trip development (localAsUtc, zonedTimeToUtc) works in
  integral minutes, matching the source guarantee, which is stated only to
  the minute.
* JavaScript strings are Lean strings.  The source only ever lowercases and
  searches ASCII data, so toLowerCase is modelled by an ASCII character map,
  String.prototype.includes by a scan over all tail positions, and the
  default lexicographic Array.prototype.sort by insertion sort over a
  character-by-character comparison.
* A JavaScript object used as a map from names to values is an association
  list in key-insertion order; object keys are unique by construction, which
  is carried as a hypothesis where a statement needs it.
* Fallible steps (the upstream fetch) are Except values; files that may be
  absent or unreadable are Option values.
-/

namespace Cypress

/-! ### String helpers (ASCII models of the JavaScript primitives) -/

/-- ASCII lowercasing of one character, the fragment of toLowerCase exercised
by the source data. -/
def lowerChar (c : Char) : Char :=
  if 'A' ≤ c ∧ c ≤ 'Z' then Char.ofNat (c.toNat + 32) else c

/-- Model of JavaScript String.prototype.toLowerCase on ASCII data. -/
def jsToLower (s : String) : String := ⟨s.data.map lowerChar⟩

/-- Scan of every tail of a character list for an occurrence of the pattern
as a prefix; this is the semantics of String.prototype.includes. -/
def subSearch (p : List Char) : List Char → Bool
  | [] => p.isPrefixOf []
  | a :: as => p.isPrefixOf (a :: as) || subSearch p as

/-- Model of JavaScript s.includes(pat). -/
def strContains (s pat : String) : Bool := subSearch pat.data s.data

/-- Specification-side meaning of substring containment: the pattern occurs
contiguously somewhere in the string. -/
def ContainsSpec (s pat : String) : Prop :=
  ∃ l r, s.data = l ++ pat.data ++ r

/-- Character-by-character comparison of two character lists; this is the
code-unit lexicographic order used by the default Array.prototype.sort on
the ASCII names appearing in the feed. -/
def charListLe : List Char → List Char → Bool
  | [], _ => true
  | _ :: _, [] => false
  | a :: as, b :: bs => if a = b then charListLe as bs else decide (a < b)

/-- Lexicographic order on strings, Bool-valued. -/
def strLeB (a b : String) : Bool := charListLe a.data b.data

/-- Insert one string into an already sorted list. -/
def insertSorted (x : String) : List String → List String
  | [] => [x]
  | y :: ys => if strLeB x y then x :: y :: ys else y :: insertSorted x ys

/-- Insertion sort by the lexicographic order; models the list.sort() calls
in diffOpens. -/
def sortStrings : List String → List String
  | [] => []
  | x :: xs => insertSorted x (sortStrings xs)

/-- Absolute value on Int, mirroring Math.abs. -/
def intAbs (x : Int) : Int := if x < 0 then -x else x

/-! ### Status Normalizer (fetch-status.mjs, normalizeStatus) -/

/-- Source function normalizeStatus.  The JavaScript coercion
String(s or-else empty) turns any input into a string, so the embedded
domain is String. -/
def normalizeStatus (s : String) : String :=
  let v := jsToLower s
  if strContains v "open" then "open"
  else if strContains v "hold" then "on-hold"
  else if strContains v "closed" then "closed"
  else "unknown"

/-- The closed status vocabulary of the data model. -/
def StatusVocab (v : String) : Prop :=
  v = "open" ∨ v = "on-hold" ∨ v = "closed" ∨ v = "unknown"

/-! ### Schedule Gate (fetch-status.mjs, inSeason / getMinIntervalMs /
shouldRunNow) -/

/-- Wall-clock fields in the fixed timezone, as produced by the
Intl-based part extraction. -/
structure TzParts where
  year : Int
  month : Nat
  day : Nat
  hour : Nat
  minute : Nat
deriving DecidableEq

/-- Source function inSeason: months November through May. -/
def inSeason (month : Nat) : Bool :=
  month == 11 || month == 12 || (decide (1 ≤ month) && decide (month ≤ 5))

/-- Source function minutesSinceMidnight. -/
def minutesSinceMidnight (p : TzParts) : Nat := p.hour * 60 + p.minute

/-- Source function getMinIntervalMs: none means do not update, otherwise
the minimum inter-poll interval in milliseconds for the current
sub-window. -/
def getMinIntervalMs (p : TzParts) : Option Nat :=
  if !(inSeason p.month) then none
  else
    let m := minutesSinceMidnight p
    if 23 * 60 ≤ m then none
    else if m < 5 * 60 then none
    else if 5 * 60 ≤ m ∧ m < 7 * 60 then some (10 * 60 * 1000)
    else if 7 * 60 ≤ m ∧ m < 7 * 60 + 50 then some (10 * 60 * 1000)
    else if 7 * 60 + 50 ≤ m ∧ m < 10 * 60 + 30 then some (5 * 60 * 1000)
    else some (10 * 60 * 1000)

/-- Source function shouldRunNow.  lastFetchedMs is the parse of the
fetched_at field of the previously written status file: none models a
missing or unreadable file, a missing field, or an unparseable timestamp,
all of which allow the run. -/
def shouldRunNow (p : TzParts) (nowMs : Int) (lastFetchedMs : Option Int) : Bool :=
  match getMinIntervalMs p with
  | none => false
  | some minIntervalMs =>
    match lastFetchedMs with
    | none => true
    | some last =>
      let delta := nowMs - last
      if 0 ≤ delta ∧ delta < (minIntervalMs : Int) then false else true

/-- Specification-side interval for the current sub-window: the faster
5-minute cadence during the rolling-opening period 07:50 to 10:30, the
10-minute cadence otherwise. -/
def specInterval (m : Nat) : Nat :=
  if 7 * 60 + 50 ≤ m ∧ m < 10 * 60 + 30 then 5 * 60 * 1000 else 10 * 60 * 1000

/-! ### Snapshot Store (fetch-status.mjs, pruneSnapshots) -/

/-- One retained observation, as pushed onto history.snapshots.  The
fetched_at field models Date.parse of the stored ISO string: some ms when
the timestamp parses, none when it is malformed. -/
structure Snapshot where
  fetched_at : Option Int
  source_updated : Option String
  lifts : List (String × String)
  trails : List (String × String)
  operations : Option String
deriving DecidableEq

/-- Retention window constant HISTORY_RETENTION_HOURS. -/
def HISTORY_RETENTION_HOURS : Int := 48

/-- Source function pruneSnapshots: keep a snapshot when its timestamp
parses and is at least now minus the retention window. -/
def pruneSnapshots (snapshots : List Snapshot) (nowMs : Int) : List Snapshot :=
  let cutoff := nowMs - HISTORY_RETENTION_HOURS * 60 * 60 * 1000
  snapshots.filter (fun s =>
    match s.fetched_at with
    | some t => decide (cutoff ≤ t)
    | none => false)

/-! ### Nearest-Snapshot Locator (fetch-status.mjs, nearestSnapshot) -/

/-- Distance of one snapshot from the target, when its timestamp parses. -/
def distOf (targetMs : Int) (s : Snapshot) : Option Int :=
  s.fetched_at.map (fun ms => intAbs (ms - targetMs))

/-- The scanning loop of nearestSnapshot.  The accumulator combines the
best and bestDiff variables: none models best = null with bestDiff
infinite. -/
def nearLoop (targetMs : Int) : List Snapshot → Option (Snapshot × Int) → Option (Snapshot × Int)
  | [], acc => acc
  | s :: rest, acc =>
    match s.fetched_at with
    | none => nearLoop targetMs rest acc
    | some ms =>
      let diff := intAbs (ms - targetMs)
      match acc with
      | none => nearLoop targetMs rest (some (s, diff))
      | some (b, bd) =>
        if diff < bd then nearLoop targetMs rest (some (s, diff))
        else nearLoop targetMs rest (some (b, bd))

/-- Source function nearestSnapshot. -/
def nearestSnapshot (snapshots : List Snapshot) (targetMs toleranceMinutes : Int) :
    Option Snapshot :=
  let tolMs := toleranceMinutes * 60 * 1000
  match nearLoop targetMs snapshots none with
  | none => none
  | some (b, bd) => if tolMs < bd then none else some b

/-- Specification-side minimum of the parseable distances in the list. -/
def minDist (targetMs : Int) : List Snapshot → Option Int
  | [] => none
  | s :: rest =>
    match s.fetched_at, minDist targetMs rest with
    | none, r => r
    | some ms, none => some (intAbs (ms - targetMs))
    | some ms, some m => some (min (intAbs (ms - targetMs)) m)

/-- Specification-side search for the first snapshot at the given distance
from the target. -/
def firstAtMin (targetMs m : Int) : List Snapshot → Option Snapshot
  | [] => none
  | s :: rest =>
    match s.fetched_at with
    | some ms => if intAbs (ms - targetMs) = m then some s else firstAtMin targetMs m rest
    | none => firstAtMin targetMs m rest

/-! ### Diff Engine (fetch-status.mjs, setOfOpen / diffOpens) -/

/-- Source function setOfOpen.  Object keys are unique, so the JavaScript
Set is simply the list of names whose status lowercases to open. -/
def setOfOpen (obj : List (String × String)) : List String :=
  (obj.filter (fun p => jsToLower p.2 == "open")).map Prod.fst

/-- Source function diffOpens. -/
def diffOpens (prev curr : List (String × String)) : List String × List String :=
  let prevOpen := setOfOpen prev
  let currOpen := setOfOpen curr
  let opened := currOpen.filter (fun n => !(prevOpen.contains n))
  let closed := prevOpen.filter (fun n => !(currOpen.contains n))
  (sortStrings opened, sortStrings closed)

/-! ### Timezone Resolver (fetch-status.mjs, getOffsetMinutes /
zonedTimeToUtc) -/

/-- Composite of getTzParts and Date.UTC over the resulting fields: reading
the local wall clock at instant t and re-interpreting the fields as UTC
shifts the instant by the zone offset at t.  The offset function o is the
semantic content of the Intl timezone database for the fixed zone, in
minutes; all instants here are in minutes, matching the to-the-minute
guarantee of the source. -/
def localAsUtc (o : Int → Int) (t : Int) : Int := t + o t

/-- Source function zonedTimeToUtc, two-pass offset correction.  The
argument is the naive instant Date.UTC(year, ..., second) formed from the
local fields. -/
def zonedTimeToUtc (o : Int → Int) (naiveLocal : Int) : Int :=
  let guess := naiveLocal
  let offset1 := o guess
  let utc1 := guess - offset1
  let offset2 := o utc1
  naiveLocal - offset2

/-- Round trip of the claim: local parts of an instant, converted back. -/
def tzRoundTrip (o : Int → Int) (t : Int) : Int := zonedTimeToUtc o (localAsUtc o t)

/-- A single daylight-saving transition at instant T: offset a before,
offset b from T on.  Real zone data is piecewise constant with isolated
transitions about six months apart, so within the at most nine hours that
the two-pass algorithm looks around an instant, at most one transition is
visible and this is the general shape. -/
def stepOffset (T a b : Int) : Int → Int := fun x => if x < T then a else b

/-! ### Event Controller (fetch-status.mjs, top-level block after the
history update) -/

/-- Dedup metadata of the History Log. -/
structure Meta where
  last_event_key : Option String
  last_event_created_at : Option String
deriving DecidableEq

/-- Placeholder fields of an Event record, later filled by the downstream
publishing workflow. -/
structure Placeholders where
  screenshot_path : Option String
  instagram_posted : Bool
  instagram_post_id : Option String
  caption : Option String
deriving DecidableEq

/-- The Event record written to event.json.  The compare fields carry the
fetched_at instants of the two snapshots compared, under the same
Date.parse convention as Snapshot. -/
structure EventRec where
  key : String
  created_at : String
  compare_from : Option Int
  compare_to : Option Int
  opened_total : Nat
  closed_total : Nat
  opened_lifts : Nat
  closed_lifts : Nat
  opened_trails : Nat
  closed_trails : Nat
  details_lifts : List String × List String
  details_trails : List String × List String
  placeholders : Placeholders
deriving DecidableEq

/-- Significance thresholds OPEN_THRESHOLD and CLOSE_THRESHOLD. -/
def OPEN_THRESHOLD : Nat := 3

/-- Closing-side significance threshold. -/
def CLOSE_THRESHOLD : Nat := 3

/-- Call site of nearestSnapshot for the morning target, tolerance 90. -/
def snapToday10Of (snaps : List Snapshot) (target10 : Int) : Option Snapshot :=
  nearestSnapshot snaps target10 90

/-- Call site of nearestSnapshot for the afternoon target; the source
passes tolerance 300 here, next to a comment saying it was updated to a
5 hour tolerance for testing and should be changed back to 90. -/
def snapYest3Of (snaps : List Snapshot) (target3 : Int) : Option Snapshot :=
  nearestSnapshot snaps target3 300

/-- Summed opened count across lifts and trails for a pair of located
snapshots, as computed in the controller. -/
def openedCountOf (st sy : Snapshot) : Nat :=
  (diffOpens sy.lifts st.lifts).1.length + (diffOpens sy.trails st.trails).1.length

/-- Summed closed count across lifts and trails. -/
def closedCountOf (st sy : Snapshot) : Nat :=
  (diffOpens sy.lifts st.lifts).2.length + (diffOpens sy.trails st.trails).2.length

/-- The Event record built at lines 324 to 349 of the source for the two
located snapshots; the diff lists are the same pure values that the
significance test inspects. -/
def mkEvent (st sy : Snapshot) (eventKey createdAt : String) : EventRec :=
  let liftsDiff := diffOpens sy.lifts st.lifts
  let trailsDiff := diffOpens sy.trails st.trails
  { key := eventKey
    created_at := createdAt
    compare_from := sy.fetched_at
    compare_to := st.fetched_at
    opened_total := liftsDiff.1.length + trailsDiff.1.length
    closed_total := liftsDiff.2.length + trailsDiff.2.length
    opened_lifts := liftsDiff.1.length
    closed_lifts := liftsDiff.2.length
    opened_trails := trailsDiff.1.length
    closed_trails := trailsDiff.2.length
    details_lifts := liftsDiff
    details_trails := trailsDiff
    placeholders := {
      screenshot_path := none
      instagram_posted := false
      instagram_post_id := none
      caption := none } }

/-- The event controller block of fetch-status.mjs, lines 300 to 367,
acting on the already appended and pruned snapshot list: locate the two
target snapshots, check the dedup key, diff, apply the thresholds, and
produce the Event record (if any) together with the updated metadata. -/
def eventController (snaps : List Snapshot) (meta : Meta) (t10 t3 : Int)
    (eventKey createdAt : String) : Option EventRec × Meta :=
  let snapToday10 := snapToday10Of snaps t10
  let snapYest3 := snapYest3Of snaps t3
  let alreadyFired := meta.last_event_key == some eventKey
  match snapToday10, snapYest3 with
  | some st, some sy =>
    if alreadyFired then (none, meta)
    else
      let liftsDiff := diffOpens sy.lifts st.lifts
      let trailsDiff := diffOpens sy.trails st.trails
      let openedCount := liftsDiff.1.length + trailsDiff.1.length
      let closedCount := liftsDiff.2.length + trailsDiff.2.length
      if OPEN_THRESHOLD ≤ openedCount ∨ CLOSE_THRESHOLD ≤ closedCount then
        (some (mkEvent st sy eventKey createdAt),
         { last_event_key := some eventKey, last_event_created_at := some createdAt })
      else (none, meta)
  | _, _ => (none, meta)

/-! ### Main pipeline of fetch-status.mjs -/

/-- One named lift or trail entry of the upstream feed. -/
structure UpEntity where
  name : String
  statusIcon : Option String
  status : Option String
deriving DecidableEq

/-- One area of the upstream feed. -/
structure UpArea where
  lifts : List UpEntity
  trails : List UpEntity
deriving DecidableEq

/-- The parsed upstream response body. -/
structure Upstream where
  areas : List UpArea
  updated : Option String
  liftsUpdated : Option String
  trailsUpdated : Option String
  operations : Option String
deriving DecidableEq

/-- JavaScript a or-else b on possibly absent strings: an absent value and
the empty string are falsy. -/
def jsOr (a b : Option String) : Option String :=
  match a with
  | some s => if s = "" then b else some s
  | none => b

/-- The status-bearing string of an entry, statusIcon or-else status,
coerced to a string as in String(s or-else empty). -/
def entityStatusString (e : UpEntity) : String :=
  (jsOr e.statusIcon e.status).getD ""

/-- Assignment into a JavaScript object: an existing key keeps its position
and gets the new value, a fresh key is appended. -/
def objInsert (m : List (String × String)) (k v : String) : List (String × String) :=
  if m.any (fun p => p.1 == k) then
    m.map (fun p => if p.1 = k then (k, v) else p)
  else m ++ [(k, v)]

/-- The nested loops that build the lifts and trails maps from the feed. -/
def buildMaps (areas : List UpArea) :
    List (String × String) × List (String × String) :=
  areas.foldl (fun acc area =>
    let lifts1 := area.lifts.foldl
      (fun m e => objInsert m e.name (normalizeStatus (entityStatusString e))) acc.1
    let trails1 := area.trails.foldl
      (fun m e => objInsert m e.name (normalizeStatus (entityStatusString e))) acc.2
    (lifts1, trails1)) ([], [])

/-- The status.json record. -/
structure StatusOut where
  fetched_at : String
  source_updated : Option String
  lifts_updated : Option String
  trails_updated : Option String
  operations : Option String
  lifts : List (String × String)
  trails : List (String × String)
deriving DecidableEq

/-- The history.json file. -/
structure HistoryFile where
  tz : String
  snapshots : List Snapshot
  meta : Meta
deriving DecidableEq

/-- The three persisted outputs; none models an absent file. -/
structure FileState where
  statusFile : Option StatusOut
  historyFile : Option HistoryFile
  eventFile : Option EventRec
deriving DecidableEq

/-- Default History Log used when the file is missing or corrupt. -/
def emptyHistory : HistoryFile :=
  { tz := "America/Vancouver"
    snapshots := []
    meta := { last_event_key := none, last_event_created_at := none } }

/-- Two-digit zero padding, as in String(n).padStart(2, the zero digit). -/
def pad2 (n : Nat) : String := if n < 10 then "0" ++ toString n else toString n

/-- Source function ymdKey. -/
def ymdKey (p : TzParts) : String :=
  toString p.year ++ "-" ++ pad2 p.month ++ "-" ++ pad2 p.day

/-- The dedup key built at line 304 of the source. -/
def eventKeyOf (todayParts yesterdayParts : TzParts) : String :=
  ymdKey todayParts ++ "_10am_vs_" ++ ymdKey yesterdayParts ++ "_3pm"

/-- Whole-invocation model of fetch-status.mjs.  Inputs crossing the IO
boundary are passed explicitly: the local wall-clock parts of now and of
now minus 24 hours, the current instant, the parse of the fetched_at field
of the prior status file (gate bookkeeping), the ISO string of now, the
result of the upstream fetch (error carries the HTTP status), and the two
target instants computed by the Timezone Resolver.  The result pairs the
final file state with the abort code, none when the invocation exits
normally (including the quiet out-of-window skip). -/
def runMain (todayParts yesterdayParts : TzParts) (nowMs : Int)
    (lastPollMs : Option Int) (nowIso : String)
    (fetchResult : Except Nat Upstream) (t10 t3 : Int)
    (fs0 : FileState) : FileState × Option Nat :=
  if shouldRunNow todayParts nowMs lastPollMs = false then (fs0, none)
  else
    match fetchResult with
    | .error code => (fs0, some code)
    | .ok data =>
      let maps := buildMaps data.areas
      let out : StatusOut := {
        fetched_at := nowIso
        source_updated := data.updated
        lifts_updated := data.liftsUpdated
        trails_updated := data.trailsUpdated
        operations := data.operations
        lifts := maps.1
        trails := maps.2 }
      let fs1 := { fs0 with statusFile := some out }
      let history0 := fs1.historyFile.getD emptyHistory
      let snaps1 := pruneSnapshots
        (history0.snapshots ++ [{
          fetched_at := some nowMs
          source_updated := data.updated
          lifts := maps.1
          trails := maps.2
          operations := data.operations }]) nowMs
      let key := eventKeyOf todayParts yesterdayParts
      let evMeta := eventController snaps1 history0.meta t10 t3 key nowIso
      let fs2 := { fs1 with
        eventFile := match evMeta.1 with
          | some e => some e
          | none => fs1.eventFile
        historyFile := some { history0 with snapshots := snaps1, meta := evMeta.2 } }
      (fs2, none)

/-! ### Publisher (scripts/post_instagraph.mjs) -/

/-- Test for the case-insensitive regular expression anchored at the start
matching http colon slash slash with an optional s. -/
def isHttpUrl (u : String) : Bool :=
  let l := (jsToLower u).data
  ("http://".data).isPrefixOf l || ("https://".data).isPrefixOf l

/-- Whether a string ends with a slash, as in endsWith of the source. -/
def endsWithSlash (b : String) : Bool := b.data.getLast? == some '/'

/-- Removal of one leading slash, the regex replace of the source. -/
def stripLeadingSlash (u : String) : String :=
  match u.data with
  | '/' :: rest => ⟨rest⟩
  | _ => u

/-- Source function asPublicUrl of post_instagraph.mjs.  The first
argument models the environment constant SCREENSHOT_BASE_URL (null when
the variable is unset or empty, by the or-else-null initialization): an
absent or empty path yields none; an explicit http or https URL is kept;
otherwise the path is resolved against the base URL when one is
configured, and yields none when it is not. -/
def asPublicUrl (screenshotBaseUrl : Option String)
    (screenshotPathOrUrl : Option String) : Option String :=
  match screenshotPathOrUrl with
  | none => none
  | some u =>
    if u = "" then none
    else if isHttpUrl u then some u
    else
      match screenshotBaseUrl with
      | none => none
      | some b =>
        if b = "" then none
        else
          let base := if endsWithSlash b then b else b ++ "/"
          some (base ++ stripLeadingSlash u)

/-- Outcome of one publisher invocation, up to the first Graph API call:
the attemptPost constructor is the unique point at which main leaves its
pure prefix and contacts the network. -/
inductive PostAction where
  | skipNoFile
  | skipNoPlaceholders
  | skipAlreadyPosted
  | skipNoCaption
  | skipNoImage
  | attemptPost (imageUrl caption : String)
deriving DecidableEq

/-- The decision prefix of main in post_instagraph.mjs, lines 111 to 144.
The file argument models reading event.json: none for a missing or
unparseable file, some none for a file whose placeholders field is absent
or null, some (some p) otherwise.  When no public image URL resolves, the
run skips, line 141 of the source. -/
def publisherDecision (screenshotBaseUrl : Option String)
    (file : Option (Option Placeholders)) : PostAction :=
  match file with
  | none => .skipNoFile
  | some none => .skipNoPlaceholders
  | some (some p) =>
    if p.instagram_posted then .skipAlreadyPosted
    else
      match p.caption with
      | none => .skipNoCaption
      | some c =>
        if c = "" then .skipNoCaption
        else
          match asPublicUrl screenshotBaseUrl p.screenshot_path with
          | none => .skipNoImage
          | some u => if u = "" then .skipNoImage else .attemptPost u c

/-- Result of the container-create, poll, publish sequence, as seen from
the script: either a published media id or a failure (HTTP error, ERROR
status, or the two-minute ceiling). -/
inductive GraphOutcome where
  | published (mediaId : String)
  | failed
deriving DecidableEq

/-- Whole-invocation model of main in post_instagraph.mjs: the decision
prefix, then, only on the attempt path, the Graph API interaction whose
outcome is supplied by the oracle argument; the event file is rewritten
(flag and media id set) only after a successful publish. -/
def publisherRun (screenshotBaseUrl : Option String)
    (file : Option (Option Placeholders)) (oracle : GraphOutcome) :
    PostAction × Option (Option Placeholders) :=
  match publisherDecision screenshotBaseUrl file with
  | .attemptPost url cap =>
    (match file, oracle with
     | some (some p), .published mid =>
       (.attemptPost url cap,
        some (some { p with instagram_posted := true, instagram_post_id := some mid }))
     | _, _ => (.attemptPost url cap, file))
  | a => (a, file)

/-! ### Helper lemmas: strings and containment -/

theorem isPrefixOf_iff_exists (p : List Char) : ∀ (l : List Char),
    p.isPrefixOf l = true ↔ ∃ r, l = p ++ r := by
  induction p with
  | nil => intro l; simp [List.isPrefixOf]
  | cons a as ih =>
    intro l
    cases l with
    | nil => simp [List.isPrefixOf]
    | cons b bs =>
      simp only [List.isPrefixOf, Bool.and_eq_true, beq_iff_eq, ih]
      constructor
      · rintro ⟨rfl, r, rfl⟩; exact ⟨r, rfl⟩
      · rintro ⟨r, h⟩
        injection h with h1 h2
        exact ⟨h1.symm, r, h2⟩

theorem subSearch_iff (p : List Char) : ∀ (l : List Char),
    subSearch p l = true ↔ ∃ l₁ l₂, l = l₁ ++ p ++ l₂ := by
  intro l
  induction l with
  | nil =>
    simp only [subSearch, isPrefixOf_iff_exists]
    constructor
    · rintro ⟨r, h⟩
      rcases List.append_eq_nil.mp h.symm with ⟨rfl, rfl⟩
      exact ⟨[], [], rfl⟩
    · rintro ⟨l₁, l₂, h⟩
      rcases List.append_eq_nil.mp h.symm with ⟨h1, rfl⟩
      rcases List.append_eq_nil.mp h1 with ⟨rfl, rfl⟩
      exact ⟨[], rfl⟩
  | cons a as ih =>
    simp only [subSearch, Bool.or_eq_true, isPrefixOf_iff_exists, ih]
    constructor
    · rintro (⟨r, h⟩ | ⟨l₁, l₂, h⟩)
      · exact ⟨[], r, by simpa using h⟩
      · exact ⟨a :: l₁, l₂, by simp [h]⟩
    · rintro ⟨l₁, l₂, h⟩
      cases l₁ with
      | nil => exact Or.inl ⟨l₂, by simpa using h⟩
      | cons x xs =>
        right
        simp only [List.cons_append] at h
        injection h with h1 h2
        exact ⟨xs, l₂, h2⟩

theorem strContains_iff (s pat : String) :
    strContains s pat = true ↔ ContainsSpec s pat := by
  simpa [strContains, ContainsSpec] using subSearch_iff pat.data s.data

theorem vocab_open_test (v : String) (hv : StatusVocab v) :
    (jsToLower v == "open") = true ↔ v = "open" := by
  rcases hv with rfl | rfl | rfl | rfl <;> simp <;> decide

/-! ### Helper lemmas: sorting -/

/-- The Prop form of the lexicographic order used for the sorted lists. -/
def strLe (a b : String) : Prop := strLeB a b = true

theorem charListLe_total : ∀ (a b : List Char),
    charListLe a b = true ∨ charListLe b a = true := by
  intro a
  induction a with
  | nil => intro b; left; rfl
  | cons x xs ih =>
    intro b
    cases b with
    | nil => right; rfl
    | cons y ys =>
      by_cases hxy : x = y
      · subst hxy
        rcases ih ys with h | h
        · left; simpa [charListLe] using h
        · right; simpa [charListLe] using h
      · rcases lt_trichotomy x y with hlt | heq | hgt
        · left; simp [charListLe, hxy, hlt]
        · exact absurd heq hxy
        · right; simp [charListLe, Ne.symm hxy, hgt]

theorem charListLe_trans : ∀ (a b c : List Char),
    charListLe a b = true → charListLe b c = true → charListLe a c = true := by
  intro a
  induction a with
  | nil => intro b c _ _; rfl
  | cons x xs ih =>
    intro b c hab hbc
    cases b with
    | nil => simp [charListLe] at hab
    | cons y ys =>
      cases c with
      | nil => simp [charListLe] at hbc
      | cons z zs =>
        by_cases hxy : x = y
        · subst hxy
          by_cases hyz : x = z
          · subst hyz
            simp only [charListLe, if_pos rfl] at hab hbc ⊢
            exact ih ys zs hab hbc
          · simp only [charListLe, if_neg hyz] at hbc ⊢
            exact hbc
        · simp only [charListLe, if_neg hxy, decide_eq_true_eq] at hab
          by_cases hyz : y = z
          · subst hyz
            simp [charListLe, hxy, hab]
          · simp only [charListLe, if_neg hyz, decide_eq_true_eq] at hbc
            have hxz : x < z := lt_trans hab hbc
            simp [charListLe, ne_of_lt hxz, hxz]

theorem strLe_total (a b : String) : strLe a b ∨ strLe b a :=
  charListLe_total a.data b.data

theorem strLe_trans {a b c : String} (h1 : strLe a b) (h2 : strLe b c) : strLe a c :=
  charListLe_trans a.data b.data c.data h1 h2

theorem mem_insertSorted (x a : String) : ∀ (l : List String),
    a ∈ insertSorted x l ↔ a = x ∨ a ∈ l := by
  intro l
  induction l with
  | nil => simp [insertSorted]
  | cons y ys ih =>
    by_cases h : strLeB x y = true
    · simp [insertSorted, h]
    · simp only [insertSorted, if_neg h, List.mem_cons, ih]
      tauto

theorem mem_sortStrings (a : String) : ∀ (l : List String),
    a ∈ sortStrings l ↔ a ∈ l := by
  intro l
  induction l with
  | nil => simp [sortStrings]
  | cons x xs ih =>
    simp [sortStrings, mem_insertSorted, ih]

theorem sorted_insertSorted (x : String) : ∀ (l : List String),
    List.Sorted strLe l → List.Sorted strLe (insertSorted x l) := by
  intro l
  induction l with
  | nil => intro _; simp [insertSorted]
  | cons y ys ih =>
    intro hs
    rcases List.sorted_cons.mp hs with ⟨hy, hys⟩
    by_cases h : strLeB x y = true
    · rw [insertSorted, if_pos h]
      refine List.sorted_cons.mpr ⟨?_, hs⟩
      intro b hb
      rcases List.mem_cons.mp hb with rfl | hb
      · exact h
      · exact strLe_trans h (hy b hb)
    · rw [insertSorted, if_neg h]
      refine List.sorted_cons.mpr ⟨?_, ih hys⟩
      intro b hb
      rcases (mem_insertSorted x b ys).mp hb with hbx | hb
      · subst hbx
        rcases strLe_total b y with hxy | hyx
        · exact absurd hxy h
        · exact hyx
      · exact hy b hb

theorem sorted_sortStrings : ∀ (l : List String),
    List.Sorted strLe (sortStrings l) := by
  intro l
  induction l with
  | nil => simp [sortStrings]
  | cons x xs ih => exact sorted_insertSorted x (sortStrings xs) ih

/-! ### Helper lemmas: the nearest-snapshot scan -/

theorem minDist_none_iff (t : Int) : ∀ (l : List Snapshot),
    minDist t l = none ↔ ∀ s ∈ l, s.fetched_at = none := by
  intro l
  induction l with
  | nil => simp [minDist]
  | cons s rest ih =>
    constructor
    · intro h s' hs'
      cases hfa : s.fetched_at with
      | none =>
        simp only [minDist, hfa] at h
        rcases List.mem_cons.mp hs' with rfl | hmem
        · exact hfa
        · exact (ih.mp h) s' hmem
      | some ms =>
        simp only [minDist, hfa] at h
        cases hmr : minDist t rest <;> rw [hmr] at h <;> simp at h
    · intro h
      have hfa := h s (List.mem_cons_self _ _)
      simp only [minDist, hfa]
      exact ih.mpr (fun s' hs' => h s' (List.mem_cons_of_mem _ hs'))

theorem minDist_le (t : Int) : ∀ (l : List Snapshot) (m : Int), minDist t l = some m →
    ∀ s ∈ l, ∀ ms, s.fetched_at = some ms → m ≤ intAbs (ms - t) := by
  intro l
  induction l with
  | nil => intro m h; simp [minDist] at h
  | cons s rest ih =>
    intro m h s' hs' ms hms
    cases hfa : s.fetched_at with
    | none =>
      simp only [minDist, hfa] at h
      rcases List.mem_cons.mp hs' with rfl | hmem
      · rw [hfa] at hms; exact absurd hms (by simp)
      · exact ih m h s' hmem ms hms
    | some ms0 =>
      cases hmr : minDist t rest with
      | none =>
        simp only [minDist, hfa, hmr] at h
        injection h with h
        subst h
        rcases List.mem_cons.mp hs' with rfl | hmem
        · rw [hfa] at hms; injection hms with hms; subst hms; exact le_refl _
        · exact absurd hms (by simp [(minDist_none_iff t rest).mp hmr s' hmem])
      | some m' =>
        simp only [minDist, hfa, hmr] at h
        injection h with h
        subst h
        rcases List.mem_cons.mp hs' with rfl | hmem
        · rw [hfa] at hms; injection hms with hms; subst hms; exact min_le_left _ _
        · exact le_trans (min_le_right _ _) (ih m' hmr s' hmem ms hms)

theorem minDist_mem (t : Int) : ∀ (l : List Snapshot) (m : Int), minDist t l = some m →
    ∃ s ∈ l, distOf t s = some m := by
  intro l
  induction l with
  | nil => intro m h; simp [minDist] at h
  | cons s rest ih =>
    intro m h
    cases hfa : s.fetched_at with
    | none =>
      simp only [minDist, hfa] at h
      rcases ih m h with ⟨s', hmem, hd⟩
      exact ⟨s', List.mem_cons_of_mem _ hmem, hd⟩
    | some ms0 =>
      cases hmr : minDist t rest with
      | none =>
        simp only [minDist, hfa, hmr] at h
        injection h with h
        exact ⟨s, List.mem_cons_self _ _, by simp [distOf, hfa, h]⟩
      | some m' =>
        simp only [minDist, hfa, hmr] at h
        injection h with h
        rw [min_def] at h
        by_cases hc : intAbs (ms0 - t) ≤ m'
        · rw [if_pos hc] at h
          exact ⟨s, List.mem_cons_self _ _, by simp [distOf, hfa, h]⟩
        · rw [if_neg hc] at h
          rcases ih m' hmr with ⟨s', hmem, hd⟩
          exact ⟨s', List.mem_cons_of_mem _ hmem, by rw [hd, h]⟩

theorem firstAtMin_isSome (t m : Int) : ∀ (l : List Snapshot),
    (∃ s ∈ l, distOf t s = some m) → ∃ s', firstAtMin t m l = some s' := by
  intro l
  induction l with
  | nil => rintro ⟨s, hmem, _⟩; simp at hmem
  | cons s rest ih =>
    rintro ⟨s', hmem, hd⟩
    cases hfa : s.fetched_at with
    | none =>
      simp only [firstAtMin, hfa]
      rcases List.mem_cons.mp hmem with rfl | hmem'
      · rw [distOf, hfa] at hd; exact absurd hd (by simp)
      · exact ih ⟨s', hmem', hd⟩
    | some ms0 =>
      simp only [firstAtMin, hfa]
      by_cases hc : intAbs (ms0 - t) = m
      · exact ⟨s, by rw [if_pos hc]⟩
      · rw [if_neg hc]
        rcases List.mem_cons.mp hmem with rfl | hmem'
        · simp only [distOf, hfa, Option.map_some'] at hd
          injection hd with hd
          exact absurd hd hc
        · exact ih ⟨s', hmem', hd⟩

theorem firstAtMin_decomp (t m : Int) : ∀ (l : List Snapshot) (s : Snapshot),
    firstAtMin t m l = some s →
    ∃ l₁ l₂, l = l₁ ++ s :: l₂ ∧ distOf t s = some m ∧
      ∀ s' ∈ l₁, distOf t s' ≠ some m := by
  intro l
  induction l with
  | nil => intro s h; simp [firstAtMin] at h
  | cons s0 rest ih =>
    intro s h
    cases hfa : s0.fetched_at with
    | none =>
      simp only [firstAtMin, hfa] at h
      rcases ih s h with ⟨l₁, l₂, rfl, hd, hnone⟩
      refine ⟨s0 :: l₁, l₂, rfl, hd, ?_⟩
      intro s' hs'
      rcases List.mem_cons.mp hs' with rfl | hs'
      · simp [distOf, hfa]
      · exact hnone s' hs'
    | some ms0 =>
      simp only [firstAtMin, hfa] at h
      by_cases hc : intAbs (ms0 - t) = m
      · rw [if_pos hc] at h
        injection h with h
        subst h
        exact ⟨[], rest, rfl, by simp [distOf, hfa, hc], by simp⟩
      · rw [if_neg hc] at h
        rcases ih s h with ⟨l₁, l₂, rfl, hd, hnone⟩
        refine ⟨s0 :: l₁, l₂, rfl, hd, ?_⟩
        intro s' hs'
        rcases List.mem_cons.mp hs' with rfl | hs'
        · simp [distOf, hfa, hc]
        · exact hnone s' hs'

theorem nearLoop_some_none (t : Int) : ∀ (l : List Snapshot) (b : Snapshot) (bd : Int),
    minDist t l = none → nearLoop t l (some (b, bd)) = some (b, bd) := by
  intro l
  induction l with
  | nil => intro b bd _; rfl
  | cons s rest ih =>
    intro b bd h
    cases hfa : s.fetched_at with
    | none =>
      simp only [minDist, hfa] at h
      simp only [nearLoop, hfa]
      exact ih b bd h
    | some ms =>
      simp only [minDist, hfa] at h
      cases hmr : minDist t rest <;> rw [hmr] at h <;> simp at h

theorem nearLoop_some_ge (t : Int) : ∀ (l : List Snapshot) (b : Snapshot) (bd m : Int),
    minDist t l = some m → bd ≤ m → nearLoop t l (some (b, bd)) = some (b, bd) := by
  intro l
  induction l with
  | nil => intro b bd m h; simp [minDist] at h
  | cons s rest ih =>
    intro b bd m h hle
    cases hfa : s.fetched_at with
    | none =>
      simp only [minDist, hfa] at h
      simp only [nearLoop, hfa]
      exact ih b bd m h hle
    | some ms =>
      simp only [minDist, hfa] at h
      cases hmr : minDist t rest with
      | none =>
        rw [hmr] at h
        injection h with h
        have hnot : ¬ intAbs (ms - t) < bd := by omega
        simp only [nearLoop, hfa, if_neg hnot]
        exact nearLoop_some_none t rest b bd hmr
      | some m' =>
        rw [hmr] at h
        injection h with h
        rw [min_def] at h
        have h1 : bd ≤ intAbs (ms - t) ∧ bd ≤ m' := by
          by_cases hc : intAbs (ms - t) ≤ m'
          · rw [if_pos hc] at h; omega
          · rw [if_neg hc] at h; omega
        have hnot : ¬ intAbs (ms - t) < bd := by omega
        simp only [nearLoop, hfa, if_neg hnot]
        exact ih b bd m' hmr h1.2

theorem nearLoop_some_lt (t : Int) : ∀ (l : List Snapshot) (b : Snapshot) (bd m : Int),
    minDist t l = some m → m < bd →
    ∃ s, firstAtMin t m l = some s ∧ nearLoop t l (some (b, bd)) = some (s, m) := by
  intro l
  induction l with
  | nil => intro b bd m h; simp [minDist] at h
  | cons s rest ih =>
    intro b bd m h hlt
    cases hfa : s.fetched_at with
    | none =>
      simp only [minDist, hfa] at h
      rcases ih b bd m h hlt with ⟨s', h1, h2⟩
      refine ⟨s', ?_, ?_⟩
      · simp only [firstAtMin, hfa]; exact h1
      · simp only [nearLoop, hfa]; exact h2
    | some ms =>
      simp only [minDist, hfa] at h
      cases hmr : minDist t rest with
      | none =>
        rw [hmr] at h
        injection h with h
        subst h
        refine ⟨s, ?_, ?_⟩
        · simp [firstAtMin, hfa]
        · simp only [nearLoop, hfa, if_pos hlt]
          exact nearLoop_some_none t rest s _ hmr
      | some m' =>
        rw [hmr] at h
        injection h with h
        by_cases hcm : intAbs (ms - t) ≤ m'
        · have hm : m = intAbs (ms - t) := by rw [← h, min_def, if_pos hcm]
          subst hm
          refine ⟨s, ?_, ?_⟩
          · simp [firstAtMin, hfa]
          · simp only [nearLoop, hfa, if_pos hlt]
            exact nearLoop_some_ge t rest s _ m' hmr hcm
        · have hm : m = m' := by rw [← h, min_def, if_neg hcm]
          subst hm
          have hne : intAbs (ms - t) ≠ m := by omega
          by_cases hcb : intAbs (ms - t) < bd
          · rcases ih s (intAbs (ms - t)) m hmr (by omega) with ⟨s', h1, h2⟩
            refine ⟨s', ?_, ?_⟩
            · simp only [firstAtMin, hfa, if_neg hne]; exact h1
            · simp only [nearLoop, hfa, if_pos hcb]; exact h2
          · rcases ih b bd m hmr hlt with ⟨s', h1, h2⟩
            refine ⟨s', ?_, ?_⟩
            · simp only [firstAtMin, hfa, if_neg hne]; exact h1
            · simp only [nearLoop, hfa, if_neg hcb]; exact h2

theorem nearLoop_none_char (t : Int) : ∀ (l : List Snapshot),
    (minDist t l = none → nearLoop t l none = none) ∧
    (∀ m, minDist t l = some m →
      ∃ s, firstAtMin t m l = some s ∧ nearLoop t l none = some (s, m)) := by
  intro l
  induction l with
  | nil => exact ⟨fun _ => rfl, by intro m h; simp [minDist] at h⟩
  | cons s rest ih =>
    constructor
    · intro h
      cases hfa : s.fetched_at with
      | none =>
        simp only [minDist, hfa] at h
        simp only [nearLoop, hfa]
        exact ih.1 h
      | some ms =>
        simp only [minDist, hfa] at h
        cases hmr : minDist t rest <;> rw [hmr] at h <;> simp at h
    · intro m h
      cases hfa : s.fetched_at with
      | none =>
        simp only [minDist, hfa] at h
        rcases ih.2 m h with ⟨s', h1, h2⟩
        refine ⟨s', ?_, ?_⟩
        · simp only [firstAtMin, hfa]; exact h1
        · simp only [nearLoop, hfa]; exact h2
      | some ms =>
        simp only [minDist, hfa] at h
        cases hmr : minDist t rest with
        | none =>
          rw [hmr] at h
          injection h with h
          subst h
          refine ⟨s, ?_, ?_⟩
          · simp [firstAtMin, hfa]
          · simp only [nearLoop, hfa]
            exact nearLoop_some_none t rest s _ hmr
        | some m' =>
          rw [hmr] at h
          injection h with h
          by_cases hcm : intAbs (ms - t) ≤ m'
          · have hm : m = intAbs (ms - t) := by rw [← h, min_def, if_pos hcm]
            subst hm
            refine ⟨s, ?_, ?_⟩
            · simp [firstAtMin, hfa]
            · simp only [nearLoop, hfa]
              exact nearLoop_some_ge t rest s _ m' hmr hcm
          · have hm : m = m' := by rw [← h, min_def, if_neg hcm]
            subst hm
            have hne : intAbs (ms - t) ≠ m := by omega
            rcases nearLoop_some_lt t rest s (intAbs (ms - t)) m hmr (by omega) with
              ⟨s', h1, h2⟩
            refine ⟨s', ?_, ?_⟩
            · simp only [firstAtMin, hfa, if_neg hne]; exact h1
            · simp only [nearLoop, hfa]; exact h2

/-! ### Helper lemmas: the schedule gate -/

theorem inSeason_eq_false_of_not (m : Nat) (h : ¬ inSeason m = true) :
    inSeason m = false := by
  revert h; cases inSeason m <;> simp

theorem getMinIntervalMs_eq (p : TzParts) :
    getMinIntervalMs p =
      if inSeason p.month = true ∧ 5 * 60 ≤ minutesSinceMidnight p ∧
          minutesSinceMidnight p < 23 * 60 then
        some (specInterval (minutesSinceMidnight p))
      else none := by
  unfold getMinIntervalMs specInterval
  by_cases hs : inSeason p.month = true
  · simp only [hs, Bool.not_true, Bool.false_eq_true, if_false, true_and]
    split_ifs <;> first | rfl | omega
  · rw [inSeason_eq_false_of_not _ hs]
    simp [hs]

/-! ### Claim theorems -/

/-- Claim C2: normalizeStatus is total and deterministic and returns exactly
one of the four values open, on-hold, closed, unknown: it returns open if
the lowercased input contains the word open, otherwise on-hold if it
contains hold, otherwise closed if it contains closed, otherwise unknown;
it never fails.  Containment is stated through ContainsSpec, the
specification-side decomposition of the lowercased input around the
pattern. -/
theorem claim2_normalizeStatus (s : String) :
    (normalizeStatus s = "open" ∨ normalizeStatus s = "on-hold" ∨
      normalizeStatus s = "closed" ∨ normalizeStatus s = "unknown") ∧
    (normalizeStatus s = "open" ↔ ContainsSpec (jsToLower s) "open") ∧
    (normalizeStatus s = "on-hold" ↔
      ¬ ContainsSpec (jsToLower s) "open" ∧ ContainsSpec (jsToLower s) "hold") ∧
    (normalizeStatus s = "closed" ↔
      ¬ ContainsSpec (jsToLower s) "open" ∧ ¬ ContainsSpec (jsToLower s) "hold" ∧
        ContainsSpec (jsToLower s) "closed") ∧
    (normalizeStatus s = "unknown" ↔
      ¬ ContainsSpec (jsToLower s) "open" ∧ ¬ ContainsSpec (jsToLower s) "hold" ∧
        ¬ ContainsSpec (jsToLower s) "closed") := by
  simp only [← strContains_iff]
  cases h1 : strContains (jsToLower s) "open" <;>
    cases h2 : strContains (jsToLower s) "hold" <;>
      cases h3 : strContains (jsToLower s) "closed" <;>
        simp [normalizeStatus, h1, h2, h3]

/-- A snapshot whose timestamp lies strictly after the pruning instant. -/
def futureSnap : Snapshot :=
  { fetched_at := some 60000
    source_updated := none
    lifts := []
    trails := []
    operations := none }

/-- Claim C3 counterexample: pruning at instant 0 retains a snapshot whose
timestamp is 60000, one minute in the future, although the claimed closed
interval from now minus 48 hours to now excludes it; the source checks only
the lower bound. -/
theorem claim3_counterexample :
    pruneSnapshots [futureSnap] 0 = [futureSnap] ∧
    futureSnap.fetched_at = some 60000 ∧ (0 : Int) < 60000 := by decide

/-- Claim C3 (amended): pruneSnapshots retains exactly the snapshots whose
timestamp parses and is at least now minus 48 hours, with no upper bound
(snapshots timestamped in the future are retained); snapshots with
unparseable timestamps are dropped; pruning is idempotent. -/
theorem claim3_pruneSnapshots (l : List Snapshot) (nowMs : Int) :
    (∀ s, s ∈ pruneSnapshots l nowMs ↔
      (s ∈ l ∧ ∃ ts, s.fetched_at = some ts ∧ nowMs - 48 * 60 * 60 * 1000 ≤ ts)) ∧
    pruneSnapshots (pruneSnapshots l nowMs) nowMs = pruneSnapshots l nowMs := by
  constructor
  · intro s
    simp only [pruneSnapshots, HISTORY_RETENTION_HOURS, List.mem_filter]
    cases hfa : s.fetched_at with
    | none => simp [hfa]
    | some ts => simp [hfa]
  · simp only [pruneSnapshots, List.filter_filter]
    congr 1
    funext s
    cases hfa : s.fetched_at <;> simp [hfa]

/-- Claim C6: the Schedule Gate authorizes a poll iff the current local
month is in the active season, the local minutes-since-midnight value is in
the daily window from 05:00 inclusive to 23:00 exclusive, and either no
prior poll timestamp is available or the elapsed time since it is at least
the interval of the current sub-window (5 minutes during the rolling
opening period, 10 minutes otherwise); a negative elapsed time never
blocks the poll. -/
theorem claim6_scheduleGate (p : TzParts) (nowMs : Int) (last : Option Int) :
    shouldRunNow p nowMs last = true ↔
      inSeason p.month = true ∧ 5 * 60 ≤ minutesSinceMidnight p ∧
        minutesSinceMidnight p < 23 * 60 ∧
        (last = none ∨ ∃ lastMs, last = some lastMs ∧
          (nowMs - lastMs < 0 ∨
            (specInterval (minutesSinceMidnight p) : Int) ≤ nowMs - lastMs)) := by
  simp only [shouldRunNow, getMinIntervalMs_eq]
  by_cases hW : inSeason p.month = true ∧ 5 * 60 ≤ minutesSinceMidnight p ∧
      minutesSinceMidnight p < 23 * 60
  · rw [if_pos hW]
    cases last with
    | none =>
      simp only []
      constructor
      · intro _; exact ⟨hW.1, hW.2.1, hW.2.2, Or.inl trivial⟩
      · intro _; trivial
    | some lastMs =>
      simp only []
      by_cases hd : 0 ≤ nowMs - lastMs ∧
          nowMs - lastMs < ((specInterval (minutesSinceMidnight p) : Nat) : Int)
      · rw [if_pos hd]
        constructor
        · intro hfalse; exact absurd hfalse (by simp)
        · rintro ⟨_, _, _, hnone | ⟨l', hl', hc⟩⟩
          · exact absurd hnone (by simp)
          · injection hl' with hl'
            subst hl'
            exfalso
            rcases hc with hneg | hge <;> omega
      · rw [if_neg hd]
        constructor
        · intro _
          refine ⟨hW.1, hW.2.1, hW.2.2, Or.inr ⟨lastMs, rfl, ?_⟩⟩
          by_cases hneg : nowMs - lastMs < 0
          · exact Or.inl hneg
          · exact Or.inr (by omega)
        · intro _; trivial
  · rw [if_neg hW]
    simp only []
    constructor
    · intro hfalse; exact absurd hfalse (by simp)
    · rintro ⟨h1, h2, h3, _⟩
      exact absurd ⟨h1, h2, h3⟩ hW

/-- Claim C7: the timezone round trip of the claim reproduces the instant
for every offset behaviour with a single daylight-saving transition in
range (offsets west of UTC, as in the fixed zone), for every instant
outside the ambiguous hour that a fall-back transition repeats; in
particular it is exact on both sides of either kind of transition.  Units
are minutes, matching the to-the-minute guarantee. -/
theorem claim7_tzRoundTrip (T a b t : Int) (ha : a < 0) (hb : b < 0)
    (h : a ≤ b ∨ t < T ∨ T + (a - b) ≤ t) :
    tzRoundTrip (stepOffset T a b) t = t := by
  simp only [tzRoundTrip, zonedTimeToUtc, localAsUtc, stepOffset]
  split_ifs <;> omega

/-- Claim C7 witness: a concrete spring-forward transition configuration at
T = 0 (offsets 480 and 420 minutes west), instant 100 minutes after the
transition. -/
theorem claim7_witness :
    (-480 : Int) < 0 ∧ (-420 : Int) < 0 ∧
      tzRoundTrip (stepOffset 0 (-480) (-420)) 100 = 100 :=
  ⟨by decide, by decide,
    claim7_tzRoundTrip 0 (-480) (-420) 100 (by decide) (by decide) (Or.inl (by decide))⟩

/-- A snapshot 120 minutes away from the target instant 0, between the 90
minute tolerance of the specification and the 300 minute tolerance in the
source. -/
def afternoonProbe : Snapshot :=
  { fetched_at := some 7200000
    source_updated := none
    lifts := []
    trails := []
    operations := none }

/-- Claim C8: the morning call site does use tolerance 90, but the
afternoon call site passes tolerance 300 (minutes), not the default 90 the
specification states: a snapshot 120 minutes from the afternoon target is
accepted by the code, while the 90 minute tolerance (used by the morning
call site, shown on the same probe) would reject it. -/
theorem claim8_afternoonTolerance :
    snapYest3Of [afternoonProbe] 0 = some afternoonProbe ∧
    nearestSnapshot [afternoonProbe] 0 90 = none ∧
    snapToday10Of [afternoonProbe] 0 = none := by decide

/-- Claim C4: nearestSnapshot returns none on an empty list, none when no
snapshot has a parseable timestamp, none when the minimum distance to the
target strictly exceeds the tolerance in milliseconds, and otherwise the
first snapshot in list order achieving the minimum distance.  The
companion functions minDist and firstAtMin are interpreted by the third
and fifth conjuncts; the empty list falls under the second conjunct
vacuously. -/
theorem claim4_nearestSnapshot (l : List Snapshot) (t tol : Int) :
    (nearestSnapshot l t tol = none ↔
      (minDist t l = none ∨ ∃ m, minDist t l = some m ∧ tol * 60 * 1000 < m)) ∧
    (minDist t l = none ↔ ∀ s ∈ l, s.fetched_at = none) ∧
    (∀ m, minDist t l = some m →
      (∃ s ∈ l, distOf t s = some m) ∧ (∀ s ∈ l, ∀ d, distOf t s = some d → m ≤ d)) ∧
    (∀ m, minDist t l = some m → m ≤ tol * 60 * 1000 →
      nearestSnapshot l t tol = firstAtMin t m l) ∧
    (∀ m s, firstAtMin t m l = some s →
      ∃ l₁ l₂, l = l₁ ++ s :: l₂ ∧ distOf t s = some m ∧
        ∀ s' ∈ l₁, distOf t s' ≠ some m) := by
  refine ⟨?_, minDist_none_iff t l, ?_, ?_, fun m s h => firstAtMin_decomp t m l s h⟩
  · cases hml : minDist t l with
    | none =>
      have h0 := (nearLoop_none_char t l).1 hml
      simp [nearestSnapshot, h0]
    | some m =>
      rcases (nearLoop_none_char t l).2 m hml with ⟨s, hfm, hnl⟩
      simp only [nearestSnapshot, hnl]
      by_cases hc : tol * 60 * 1000 < m
      · rw [if_pos hc]
        simp [hc]
      · rw [if_neg hc]
        simp [hc]
  · intro m hm
    refine ⟨minDist_mem t l m hm, ?_⟩
    intro s hs d hd
    cases hfa : s.fetched_at with
    | none => rw [distOf, hfa] at hd; exact absurd hd (by simp)
    | some ms =>
      rw [distOf, hfa] at hd
      simp only [Option.map_some'] at hd
      injection hd with hd
      exact hd ▸ minDist_le t l m hm s hs ms hfa
  · intro m hm hle
    rcases (nearLoop_none_char t l).2 m hm with ⟨s, hfm, hnl⟩
    simp only [nearestSnapshot, hnl]
    rw [if_neg (by omega), hfm]

/-- A probe snapshot 5000 milliseconds from the target instant 0. -/
def probeNear : Snapshot :=
  { fetched_at := some 5000
    source_updated := none
    lifts := []
    trails := []
    operations := none }

/-- A probe snapshot 7000 milliseconds from the target instant 0. -/
def probeFar : Snapshot :=
  { fetched_at := some (-7000)
    source_updated := none
    lifts := []
    trails := []
    operations := none }

/-- Claim C4 witness: on a concrete two-snapshot list the minimum distance
is 5000 milliseconds, within a one-minute tolerance, and nearestSnapshot
agrees with the first snapshot achieving that minimum. -/
theorem claim4_witness :
    minDist 0 [probeNear, probeFar] = some 5000 ∧ (5000 : Int) ≤ 1 * 60 * 1000 ∧
      nearestSnapshot [probeNear, probeFar] 0 1 = firstAtMin 0 5000 [probeNear, probeFar] :=
  ⟨by decide, by decide,
    (claim4_nearestSnapshot [probeNear, probeFar] 0 1).2.2.2.1 5000 (by decide) (by decide)⟩

/-- Membership in setOfOpen is exactly carrying status open, for maps whose
values come from the normalized vocabulary. -/
theorem mem_setOfOpen (obj : List (String × String))
    (hv : ∀ q ∈ obj, StatusVocab q.2) (n : String) :
    n ∈ setOfOpen obj ↔ (n, "open") ∈ obj := by
  simp only [setOfOpen, List.mem_map, List.mem_filter]
  constructor
  · rintro ⟨⟨n', v⟩, ⟨hmem, hpred⟩, rfl⟩
    have hvv : v = "open" := (vocab_open_test v (hv _ hmem)).mp hpred
    exact hvv ▸ hmem
  · intro hmem
    refine ⟨(n, "open"), ⟨hmem, ?_⟩, rfl⟩
    show (jsToLower "open" == "open") = true
    decide

/-- Boolean negation of list containment, in membership form. -/
theorem not_contains_iff (l : List String) (x : String) :
    (!(l.contains x)) = true ↔ x ∉ l := by
  simp [List.elem_iff]

/-- Claim C5: diffOpens returns as opened the names whose status is exactly
open in the current map but not in the previous one, and as closed the
names open in the previous map but not in the current one (a name absent
from a map is not in its open set), both sorted lexicographically.  The
maps carry values from the normalized status vocabulary, as produced by
the Status Normalizer. -/
theorem claim5_diffOpens (prev curr : List (String × String))
    (hvp : ∀ q ∈ prev, StatusVocab q.2) (hvc : ∀ q ∈ curr, StatusVocab q.2) :
    (∀ n, n ∈ (diffOpens prev curr).1 ↔
      ((n, "open") ∈ curr ∧ (n, "open") ∉ prev)) ∧
    (∀ n, n ∈ (diffOpens prev curr).2 ↔
      ((n, "open") ∈ prev ∧ (n, "open") ∉ curr)) ∧
    List.Sorted strLe (diffOpens prev curr).1 ∧
    List.Sorted strLe (diffOpens prev curr).2 := by
  refine ⟨?_, ?_, ?_, ?_⟩
  · intro n
    simp only [diffOpens, mem_sortStrings, List.mem_filter]
    rw [not_contains_iff, mem_setOfOpen curr hvc n, mem_setOfOpen prev hvp n]
  · intro n
    simp only [diffOpens, mem_sortStrings, List.mem_filter]
    rw [not_contains_iff, mem_setOfOpen curr hvc n, mem_setOfOpen prev hvp n]
  · exact sorted_sortStrings _
  · exact sorted_sortStrings _

/-- Claim C5 witness: the specification example, two maps over names A and
B; the opened side contains exactly B. -/
theorem claim5_witness :
    (∀ q ∈ ([("A", "open"), ("B", "closed")] : List (String × String)),
      StatusVocab q.2) ∧
    ("B" ∈ (diffOpens [("A", "open"), ("B", "closed")]
        [("A", "closed"), ("B", "open")]).1 ↔
      (("B", "open") ∈ ([("A", "closed"), ("B", "open")] : List (String × String)) ∧
        ("B", "open") ∉ ([("A", "open"), ("B", "closed")] : List (String × String)))) :=
  ⟨by simp [StatusVocab],
    (claim5_diffOpens [("A", "open"), ("B", "closed")]
      [("A", "closed"), ("B", "open")]
      (by simp [StatusVocab]) (by simp [StatusVocab])).1 "B"⟩

/-! ### Helper lemmas: the event controller -/

theorem eventController_fires (snaps : List Snapshot) (meta : Meta) (t10 t3 : Int)
    (key ca : String) (st sy : Snapshot)
    (hst : snapToday10Of snaps t10 = some st) (hsy : snapYest3Of snaps t3 = some sy)
    (haf : meta.last_event_key ≠ some key)
    (hsig : OPEN_THRESHOLD ≤ openedCountOf st sy ∨
      CLOSE_THRESHOLD ≤ closedCountOf st sy) :
    eventController snaps meta t10 t3 key ca =
      (some (mkEvent st sy key ca),
       { last_event_key := some key, last_event_created_at := some ca }) := by
  have hb : (meta.last_event_key == some key) = false := beq_eq_false_iff_ne.mpr haf
  have hsig' : OPEN_THRESHOLD ≤ (diffOpens sy.lifts st.lifts).1.length +
        (diffOpens sy.trails st.trails).1.length ∨
      CLOSE_THRESHOLD ≤ (diffOpens sy.lifts st.lifts).2.length +
        (diffOpens sy.trails st.trails).2.length := by
    simpa [openedCountOf, closedCountOf] using hsig
  simp only [eventController, hst, hsy, hb, Bool.false_eq_true, if_false, if_pos hsig']

theorem eventController_inv (snaps : List Snapshot) (meta : Meta) (t10 t3 : Int)
    (key ca : String) (e : EventRec)
    (h : (eventController snaps meta t10 t3 key ca).1 = some e) :
    ∃ st sy, snapToday10Of snaps t10 = some st ∧ snapYest3Of snaps t3 = some sy ∧
      meta.last_event_key ≠ some key ∧
      (OPEN_THRESHOLD ≤ openedCountOf st sy ∨
        CLOSE_THRESHOLD ≤ closedCountOf st sy) ∧
      e = mkEvent st sy key ca ∧
      (eventController snaps meta t10 t3 key ca).2 =
        { last_event_key := some key, last_event_created_at := some ca } := by
  cases hst : snapToday10Of snaps t10 with
  | none => simp [eventController, hst] at h
  | some st =>
    cases hsy : snapYest3Of snaps t3 with
    | none => simp [eventController, hst, hsy] at h
    | some sy =>
      by_cases haf : meta.last_event_key = some key
      · have hb : (meta.last_event_key == some key) = true := beq_iff_eq.mpr haf
        simp [eventController, hst, hsy, hb] at h
      · have hb : (meta.last_event_key == some key) = false := beq_eq_false_iff_ne.mpr haf
        simp only [eventController, hst, hsy, hb, Bool.false_eq_true, if_false] at h
        by_cases hsig : OPEN_THRESHOLD ≤ (diffOpens sy.lifts st.lifts).1.length +
              (diffOpens sy.trails st.trails).1.length ∨
            CLOSE_THRESHOLD ≤ (diffOpens sy.lifts st.lifts).2.length +
              (diffOpens sy.trails st.trails).2.length
        · rw [if_pos hsig] at h
          have he : mkEvent st sy key ca = e := by simpa using h
          have hsig' : OPEN_THRESHOLD ≤ openedCountOf st sy ∨
              CLOSE_THRESHOLD ≤ closedCountOf st sy := by
            simpa [openedCountOf, closedCountOf] using hsig
          refine ⟨st, sy, rfl, rfl, haf, hsig', he.symm, ?_⟩
          rw [eventController_fires snaps meta t10 t3 key ca st sy hst hsy haf hsig']
        · rw [if_neg hsig] at h
          simp at h

theorem eventController_quiet (snaps : List Snapshot) (meta : Meta) (t10 t3 : Int)
    (key ca : String)
    (h : (eventController snaps meta t10 t3 key ca).1 = none) :
    (eventController snaps meta t10 t3 key ca).2 = meta := by
  cases hst : snapToday10Of snaps t10 with
  | none => simp [eventController, hst]
  | some st =>
    cases hsy : snapYest3Of snaps t3 with
    | none => simp [eventController, hst, hsy]
    | some sy =>
      by_cases haf : meta.last_event_key = some key
      · have hb : (meta.last_event_key == some key) = true := beq_iff_eq.mpr haf
        simp [eventController, hst, hsy, hb]
      · have hb : (meta.last_event_key == some key) = false := beq_eq_false_iff_ne.mpr haf
        simp only [eventController, hst, hsy, hb, Bool.false_eq_true, if_false] at h ⊢
        by_cases hsig : OPEN_THRESHOLD ≤ (diffOpens sy.lifts st.lifts).1.length +
              (diffOpens sy.trails st.trails).1.length ∨
            CLOSE_THRESHOLD ≤ (diffOpens sy.lifts st.lifts).2.length +
              (diffOpens sy.trails st.trails).2.length
        · rw [if_pos hsig] at h
          simp at h
        · rw [if_neg hsig]

/-- Claim C1: an Event record is produced (and the metadata set to the
window key and creation time) iff both target snapshots are found and the
key has not already fired and the summed opened count or the summed closed
count reaches its threshold of 3; in every other case no event is produced
and the metadata is returned unchanged. -/
theorem claim1_eventController (snaps : List Snapshot) (meta : Meta) (t10 t3 : Int)
    (key ca : String) :
    ((eventController snaps meta t10 t3 key ca).1 ≠ none ↔
      (∃ st sy, snapToday10Of snaps t10 = some st ∧ snapYest3Of snaps t3 = some sy ∧
        meta.last_event_key ≠ some key ∧
        (OPEN_THRESHOLD ≤ openedCountOf st sy ∨
          CLOSE_THRESHOLD ≤ closedCountOf st sy))) ∧
    (∀ e, (eventController snaps meta t10 t3 key ca).1 = some e →
      e.key = key ∧
      (eventController snaps meta t10 t3 key ca).2 =
        { last_event_key := some key, last_event_created_at := some ca }) ∧
    ((eventController snaps meta t10 t3 key ca).1 = none →
      (eventController snaps meta t10 t3 key ca).2 = meta) := by
  refine ⟨⟨?_, ?_⟩, ?_, eventController_quiet snaps meta t10 t3 key ca⟩
  · intro hne
    cases he : (eventController snaps meta t10 t3 key ca).1 with
    | none => exact absurd he hne
    | some e =>
      rcases eventController_inv snaps meta t10 t3 key ca e he with
        ⟨st, sy, h1, h2, h3, h4, _, _⟩
      exact ⟨st, sy, h1, h2, h3, h4⟩
  · rintro ⟨st, sy, hst, hsy, haf, hsig⟩
    rw [eventController_fires snaps meta t10 t3 key ca st sy hst hsy haf hsig]
    simp
  · intro e he
    rcases eventController_inv snaps meta t10 t3 key ca e he with
      ⟨st, sy, _, _, _, _, he', hsnd⟩
    subst he'
    exact ⟨rfl, hsnd⟩

/-- A morning-side witness snapshot with three lifts open. -/
def wsnapToday : Snapshot :=
  { fetched_at := some 0
    source_updated := none
    lifts := [("A", "open"), ("B", "open"), ("C", "open")]
    trails := []
    operations := none }

/-- An afternoon-side witness snapshot with nothing open. -/
def wsnapYest : Snapshot :=
  { fetched_at := some 10000000
    source_updated := none
    lifts := []
    trails := []
    operations := none }

/-- Claim C1 witness: on a concrete history with a snapshot at each target
and three newly opened lifts, a first run (no stored key) produces an
event. -/
theorem claim1_witness :
    snapToday10Of [wsnapToday, wsnapYest] 0 = some wsnapToday ∧
    snapYest3Of [wsnapToday, wsnapYest] 10000000 = some wsnapYest ∧
    (eventController [wsnapToday, wsnapYest]
        { last_event_key := none, last_event_created_at := none }
        0 10000000 "k" "now").1 ≠ none :=
  ⟨by decide, by decide,
    (claim1_eventController [wsnapToday, wsnapYest]
        { last_event_key := none, last_event_created_at := none }
        0 10000000 "k" "now").1.mpr
      ⟨wsnapToday, wsnapYest, by decide, by decide, by decide, Or.inl (by decide)⟩⟩

/-- Claim C9: when the upstream fetch returns a non-success response, the
invocation aborts with that error code and every persisted output (current
status record, History Log, Event record) is exactly the prior state. -/
theorem claim9_fetchFailure (todayParts yesterdayParts : TzParts) (nowMs : Int)
    (last : Option Int) (iso : String) (code : Nat) (t10 t3 : Int) (fs0 : FileState)
    (hgate : shouldRunNow todayParts nowMs last = true) :
    runMain todayParts yesterdayParts nowMs last iso (Except.error code) t10 t3 fs0 =
      (fs0, some code) := by
  simp [runMain, hgate]

/-- Claim C9 witness: a concrete in-season, in-window invocation with no
prior poll, whose fetch fails with HTTP 503, returns the empty prior state
untouched together with the abort code. -/
theorem claim9_witness :
    shouldRunNow { year := 2025, month := 1, day := 10, hour := 8, minute := 0 }
        0 none = true ∧
    runMain { year := 2025, month := 1, day := 10, hour := 8, minute := 0 }
        { year := 2025, month := 1, day := 9, hour := 8, minute := 0 } 0 none "iso"
        (Except.error 503) 0 0
        { statusFile := none, historyFile := none, eventFile := none } =
      ({ statusFile := none, historyFile := none, eventFile := none }, some 503) :=
  ⟨by decide, claim9_fetchFailure _ _ _ _ _ _ _ _ _ (by decide)⟩

/-- Claim C10: an Event record as produced by the core has a null caption
and a false posted flag, and on such a record the publisher stops at the
no-caption skip for every base-URL configuration and every network
outcome: no Graph API call is made and the event file is returned
unchanged; conversely a post is attempted only for a file that exists,
has placeholders, has the posted flag still false, has a non-empty
caption, and whose screenshot path resolves to a public image URL. -/
theorem claim10_publisher :
    (∀ (snaps : List Snapshot) (meta : Meta) (t10 t3 : Int) (key ca : String)
        (e : EventRec), (eventController snaps meta t10 t3 key ca).1 = some e →
      e.placeholders.caption = none ∧ e.placeholders.instagram_posted = false ∧
      ∀ base oracle, publisherRun base (some (some e.placeholders)) oracle =
        (PostAction.skipNoCaption, some (some e.placeholders))) ∧
    (∀ (base : Option String) (file : Option (Option Placeholders))
        (oracle : GraphOutcome) (url cap : String),
      (publisherRun base file oracle).1 = PostAction.attemptPost url cap →
      ∃ p, file = some (some p) ∧ p.instagram_posted = false ∧
        p.caption = some cap ∧ cap ≠ "" ∧
        asPublicUrl base p.screenshot_path = some url ∧ url ≠ "") := by
  constructor
  · intro snaps meta t10 t3 key ca e he
    rcases eventController_inv snaps meta t10 t3 key ca e he with
      ⟨st, sy, _, _, _, _, he', _⟩
    subst he'
    exact ⟨rfl, rfl, fun base oracle => rfl⟩
  · intro base file oracle url cap h
    match file with
    | none => simp [publisherRun, publisherDecision] at h
    | some none => simp [publisherRun, publisherDecision] at h
    | some (some p) =>
      by_cases hp : p.instagram_posted = true
      · simp [publisherRun, publisherDecision, hp] at h
      · cases hc : p.caption with
        | none => simp [publisherRun, publisherDecision, hp, hc] at h
        | some c =>
          by_cases hce : c = ""
          · simp [publisherRun, publisherDecision, hp, hc, hce] at h
          · cases hiu : asPublicUrl base p.screenshot_path with
            | none => simp [publisherRun, publisherDecision, hp, hc, hce, hiu] at h
            | some u =>
              by_cases hue : u = ""
              · simp [publisherRun, publisherDecision, hp, hc, hce, hiu, hue] at h
              · have hd : publisherDecision base (some (some p)) =
                    PostAction.attemptPost u c := by
                  simp [publisherDecision, hp, hc, hce, hiu, hue]
                simp only [publisherRun, hd] at h
                cases oracle <;>
                  simp only [PostAction.attemptPost.injEq] at h <;>
                  exact ⟨p, rfl, by simpa using hp, by rw [hc, h.2],
                    h.2 ▸ hce, by rw [hiu, h.1], h.1 ▸ hue⟩

/-- A placeholder record with a caption and an explicit public screenshot
URL already filled in by the external step. -/
def filledPlaceholders : Placeholders :=
  { screenshot_path := some "https://example.org/shot.png"
    instagram_posted := false
    instagram_post_id := none
    caption := some "hi" }

/-- Claim C10 witness: on an event file whose caption and public
screenshot URL were filled in, the publisher (with no base URL configured)
does reach the posting attempt, and the attempt conditions of the claim
hold at that input. -/
theorem claim10_witness :
    (publisherRun none (some (some filledPlaceholders)) GraphOutcome.failed).1 =
      PostAction.attemptPost "https://example.org/shot.png" "hi" ∧
    ∃ p, (some (some filledPlaceholders) : Option (Option Placeholders)) =
        some (some p) ∧ p.instagram_posted = false ∧ p.caption = some "hi" ∧
        "hi" ≠ "" ∧
        asPublicUrl none p.screenshot_path = some "https://example.org/shot.png" ∧
        "https://example.org/shot.png" ≠ "" :=
  ⟨by decide,
    claim10_publisher.2 none (some (some filledPlaceholders)) GraphOutcome.failed
      "https://example.org/shot.png" "hi" (by decide)⟩

end Cypress
